import Mathlib

/-!
Verification development for the TD-PSD feature extractor
(`getTDPSDfeatv3.py`): a sliding-window feature extractor that computes
six time-domain power-spectral-descriptor features per channel via the
moment extractor `KSM1`, applied to the raw window and to a log-power
transform of it, and combines the two outputs.

Numeric values are modelled over `ℝ`; numpy arrays are modelled by the
shape-carrying structures `Mat` (2D) and `Vec` (1D), whose entry
functions are total (out-of-range entries are irrelevant but keep the
operations pointwise).  Python exceptions (the explicit `TypeError`
argument-count check, numpy's `ValueError` on negative `np.zeros`
dimensions and on shape-mismatched row assignment, and `ZeroDivisionError`
for a zero window increment) are modelled by the error type `PyErr`; the
windowing loop is modelled by explicit state passing over `WState`.
-/

namespace TDPSD

noncomputable section

/-- A 2D numeric array (numpy `ndarray` of floats), rows × cols with a
total entry function. -/
structure Mat where
  rows : ℕ
  cols : ℕ
  entry : ℕ → ℕ → ℝ

/-- A 1D numeric array. -/
structure Vec where
  len : ℕ
  entry : ℕ → ℝ

/-- Elementwise map over a matrix (numpy elementwise ufunc application). -/
def Mat.map (f : ℝ → ℝ) (S : Mat) : Mat :=
  ⟨S.rows, S.cols, fun t c => f (S.entry t c)⟩

/-- Elementwise negation, `-S`. -/
def Mat.neg (S : Mat) : Mat := S.map (fun v => -v)

/-- `np.transpose`. -/
def Mat.transpose (S : Mat) : Mat :=
  ⟨S.cols, S.rows, fun i j => S.entry j i⟩

/-- `np.diff(S, n=1, axis=0)`: first difference along the time axis. -/
def Mat.diff (S : Mat) : Mat :=
  ⟨S.rows - 1, S.cols, fun t c => S.entry (t + 1) c - S.entry t c⟩

/-- `np.sum(S, axis=0)` at column `c`: sum of column `c` over the rows. -/
def Mat.colSum (S : Mat) (c : ℕ) : ℝ :=
  ∑ t ∈ Finset.range S.rows, S.entry t c

/-- The row slice `S[st:en, :]` (Python slicing clamps `en` to the row
count). -/
def Mat.sliceRows (S : Mat) (st en : ℕ) : Mat :=
  ⟨min en S.rows - st, S.cols, fun t c => S.entry (st + t) c⟩

/-- `np.zeros((r, c))`. -/
def Mat.zeros (r c : ℕ) : Mat := ⟨r, c, fun _ _ => 0⟩

/-- The row assignment `S[i, :] = v` (shape compatibility is checked by
the caller). -/
def Mat.setRow (S : Mat) (i : ℕ) (v : Vec) : Mat :=
  ⟨S.rows, S.cols, fun r c => if r = i then v.entry c else S.entry r c⟩

/-- Elementwise map over a 1D array. -/
def Vec.map (f : ℝ → ℝ) (v : Vec) : Vec := ⟨v.len, fun i => f (v.entry i)⟩

/-- Orientation normalization at the top of `KSM1`:
`if channels > samples: S = np.transpose(S)`. -/
def orient (S : Mat) : Mat := if S.cols > S.rows then S.transpose else S

/-- The fractional-power normalization `z ** 0.1 / 0.1` applied to each
moment (`Real.rpow` models the float power). -/
def nrm (z : ℝ) : ℝ := z ^ (0.1 : ℝ) / (0.1 : ℝ)

/-- Elementwise square `v ** 2`. -/
def sq (v : ℝ) : ℝ := v ^ 2

/-- First difference `d1 = np.diff(S, n=1, axis=0)`. -/
def d1 (S : Mat) : Mat := S.diff

/-- Second difference `d2 = np.diff(d1, n=1, axis=0)`. -/
def d2 (S : Mat) : Mat := (S.diff).diff

/-- `m0 = (sqrt(sum(S**2, axis=0))) ** 0.1 / 0.1` at channel `c`. -/
def m0 (S : Mat) (c : ℕ) : ℝ :=
  nrm (Real.sqrt (Mat.colSum (S.map sq) c))

/-- `m2 = (sqrt(sum(d1**2, axis=0) / (samples - 1))) ** 0.1 / 0.1` at
channel `c`. -/
def m2 (S : Mat) (c : ℕ) : ℝ :=
  nrm (Real.sqrt (Mat.colSum ((d1 S).map sq) c / ((S.rows : ℝ) - 1)))

/-- `m4 = (sqrt(sum(d2**2, axis=0) / (samples - 1))) ** 0.1 / 0.1` at
channel `c` — the divisor is `samples - 1`, exactly as in the source. -/
def m4 (S : Mat) (c : ℕ) : ℝ :=
  nrm (Real.sqrt (Mat.colSum ((d2 S).map sq) c / ((S.rows : ℝ) - 1)))

/-- Sparseness: `sparsi = m0 / sqrt(abs((m0 - m2) * (m0 - m4)))`. -/
def sparsi (S : Mat) (c : ℕ) : ℝ :=
  m0 S c / Real.sqrt |(m0 S c - m2 S c) * (m0 S c - m4 S c)|

/-- Irregularity factor: `IRF = m2 / sqrt(m0 * m4)`. -/
def IRF (S : Mat) (c : ℕ) : ℝ :=
  m2 S c / Real.sqrt (m0 S c * m4 S c)

/-- Waveform length ratio:
`WLR = sum(abs(d1), axis=0) - sum(abs(d2), axis=0)`. -/
def WLR (S : Mat) (c : ℕ) : ℝ :=
  Mat.colSum ((d1 S).map (fun v => |v|)) c -
    Mat.colSum ((d2 S).map (fun v => |v|)) c

/-- `np.concatenate((a, b, c, d, e, f), axis=0)` of six `(n, 1)` column
blocks, flattened: block `k` occupies indices `[k*n, (k+1)*n)`. -/
def stack6 (n : ℕ) (a b c d e f : ℕ → ℝ) : Vec :=
  ⟨6 * n, fun i =>
    if i < n then a i
    else if i < 2 * n then b (i - n)
    else if i < 3 * n then c (i - 2 * n)
    else if i < 4 * n then d (i - 3 * n)
    else if i < 5 * n then e (i - 4 * n)
    else f (i - 5 * n)⟩

/-- The body of `KSM1` after orientation normalization: stack the six
per-channel quantities in source order and apply `log(abs(.))`,
flattened. -/
def KSM1core (S : Mat) : Vec :=
  Vec.map (fun v => Real.log |v|)
    (stack6 S.cols (m0 S) (fun c => m0 S c - m2 S c) (fun c => m0 S c - m4 S c)
      (sparsi S) (IRF S) (WLR S))

/-- The moment extractor `KSM1`: orientation-normalize, then compute the
six features per channel. -/
def KSM1 (S : Mat) : Vec := KSM1core (orient S)

/-- Python exceptions raised by the windower: the explicit `TypeError`
for a missing sliding parameter, numpy's `ValueError` (negative
`np.zeros` dimension / shape-mismatched row assignment), and the
`ZeroDivisionError` of dividing by a zero `wininc`. -/
inductive PyErr where
  | typeErr
  | valueErr
  | zeroDivErr
deriving DecidableEq

/-- `np.spacing(1)`, the float64 spacing at 1, which equals `2 ** (-52)`
exactly. -/
def spacing1 : ℝ := 1 / 2 ^ 52

/-- The elementwise nonlinear transform `log(v**2 + np.spacing(1))`
applied to the window before the second `KSM1` call. -/
def logPow (v : ℝ) : ℝ := Real.log (sq v + spacing1)

/-- The per-window combination:
`num = -2 * efp * ebp`, `den = efp*efp + ebp*ebp`, result `num - den`
elementwise. -/
def combineVec (efp ebp : Vec) : Vec :=
  ⟨ebp.len, fun k =>
    -2 * (efp.entry k * ebp.entry k) -
      (efp.entry k * efp.entry k + ebp.entry k * ebp.entry k)⟩

/-- The mutable state of the windowing loop: the (read-only) signal
matrix `x`, the slice bounds `st`/`en`, the window index `idx`, the
output matrix `feat`, and the pending exception, if any. -/
structure WState where
  x : Mat
  st : ℕ
  en : ℕ
  idx : ℕ
  feat : Mat
  err : Option PyErr

/-- One loop iteration, assuming no pending exception: slice the current
window, extract `ebp` and `efp`, combine, and assign the feature row
(numpy raises `ValueError` if the assigned vector length does not match
the row length). -/
def wstepGo (wininc : ℕ) (s : WState) : WState :=
  let curwin := s.x.sliceRows s.st s.en
  let ebp := KSM1 curwin
  let efp := KSM1 (curwin.map logPow)
  let v := combineVec efp ebp
  if v.len = s.feat.cols then
    ⟨s.x, s.st + wininc, s.en + wininc, s.idx + 1, s.feat.setRow s.idx v, none⟩
  else
    ⟨s.x, s.st, s.en, s.idx, s.feat, some PyErr.valueErr⟩

/-- One loop iteration; a pending exception skips the body. -/
def wstep (wininc : ℕ) (s : WState) : WState :=
  match s.err with
  | some _ => s
  | none => wstepGo wininc s

/-- `for i in range(n)`: iterate `wstep` `n` times. -/
def wrun (wininc : ℕ) : ℕ → WState → WState
  | 0, s => s
  | n + 1, s => wrun wininc n (wstep wininc s)

/-- `numwin = np.int(np.floor((datasize - winsize)/wininc) + 1)`:
floored true division of the (possibly negative) integer difference. -/
def numwinZ (datasize winsize wininc : ℕ) : ℤ :=
  Int.fdiv ((datasize : ℤ) - (winsize : ℤ)) (wininc : ℤ) + 1

/-- The loop's initial state: `st = 0`, `en = winsize`,
`feat = np.zeros((numwin, Nsignals*NFPC))` with `NFPC = 6`. -/
def initState (x : Mat) (winsize numwin : ℕ) : WState :=
  ⟨x, 0, winsize, 0, Mat.zeros numwin (x.cols * 6), none⟩

/-- The final loop state of `getTDPSDfeatv3` (before the result or a
pending exception is surfaced). -/
def getTDPSDstate (x : Mat) (winsize wininc : ℕ) : WState :=
  wrun wininc (numwinZ x.rows winsize wininc).toNat
    (initState x winsize (numwinZ x.rows winsize wininc).toNat)

/-- `getTDPSDfeatv3(x, winsize, wininc)`: compute `numwin`, allocate the
feature matrix (`np.zeros` raises `ValueError` on a negative dimension;
a zero `wininc` raises `ZeroDivisionError` already when `numwin` is
computed), run the windowing loop, and return the feature matrix. -/
def getTDPSDfeatv3 (x : Mat) (winsize wininc : ℕ) : Except PyErr Mat :=
  if wininc = 0 then Except.error PyErr.zeroDivErr
  else if numwinZ x.rows winsize wininc < 0 then Except.error PyErr.valueErr
  else
    match (getTDPSDstate x winsize wininc).err with
    | some e => Except.error e
    | none => Except.ok (getTDPSDstate x winsize wininc).feat

/-- The Python entry point with variadic sliding parameters:
`getTDPSDfeatv3(x, *slidingParams)` raises `TypeError` when fewer than
two sliding parameters are passed, and otherwise uses the first two as
`winsize` and `wininc`. -/
def getTDPSDfeatVar (x : Mat) (slidingParams : List ℕ) : Except PyErr Mat :=
  match slidingParams with
  | winsize :: wininc :: _ => getTDPSDfeatv3 x winsize wininc
  | _ => Except.error PyErr.typeErr

/-- The feature row the source computes for window `i`:
`num - den` from `ebp = KSM1(curwin)` and
`efp = KSM1(log(curwin**2 + spacing))` on `curwin = x[i*wininc : i*wininc
+ winsize, :]`. -/
def targetRow (x : Mat) (ws wi i : ℕ) : Vec :=
  combineVec (KSM1 ((x.sliceRows (i * wi) (i * wi + ws)).map logPow))
    (KSM1 (x.sliceRows (i * wi) (i * wi + ws)))

/-- The six per-channel quantities in the fixed stacking order of the
source: `m0`, `m0 - m2`, `m0 - m4`, `sparsi`, `IRF`, `WLR`. -/
def featQuant (T : Mat) (f c : ℕ) : ℝ :=
  match f with
  | 0 => m0 T c
  | 1 => m0 T c - m2 T c
  | 2 => m0 T c - m4 T c
  | 3 => sparsi T c
  | 4 => IRF T c
  | _ => WLR T c

/-- Loop invariant of the windowing loop after `k` iterations (for a
signal `x`, window size `ws`, increment `wi`, and window count `N`). -/
def WInv (x : Mat) (ws wi N k : ℕ) (s : WState) : Prop :=
  s.x = x ∧ s.st = k * wi ∧ s.en = k * wi + ws ∧ s.idx = k ∧
    s.err = none ∧ s.feat.rows = N ∧ s.feat.cols = x.cols * 6 ∧
    ∀ r < k, ∀ j, s.feat.entry r j = (targetRow x ws wi r).entry j

/-- Negate only the signal-matrix field of a loop state (relates the run
on `-x` to the run on `x`). -/
def negX (s : WState) : WState := ⟨s.x.neg, s.st, s.en, s.idx, s.feat, s.err⟩

/-- A constant matrix (all samples in every channel equal). -/
def constMat (n ch : ℕ) (v : ℝ) : Mat := ⟨n, ch, fun _ _ => v⟩

/-- The 6×1 signal `[1, 2, 3, 4, 5, 6]` of Scenario 1. -/
def sigX6 : Mat :=
  ⟨6, 1, fun t _ =>
    match t with
    | 0 => 1 | 1 => 2 | 2 => 3 | 3 => 4 | 4 => 5 | _ => 6⟩

/-- A 4×8 signal: more channels than the window size, which makes `KSM1`
transpose the window and the row assignment fail. -/
def matA48 : Mat := ⟨4, 8, fun _ _ => 1⟩

/-- A 4×5 signal, also with more channels than the window size. -/
def matB45 : Mat := ⟨4, 5, fun _ _ => 2⟩

/-- The 3×1 window `[0, 1, 3]`, whose second difference has a nonzero
square sum (distinguishes the `samples - 1` and `samples - 2`
divisors). -/
def matW0 : Mat :=
  ⟨3, 1, fun t _ =>
    match t with
    | 0 => 0 | 1 => 1 | _ => 3⟩

/-- A 1×1 signal. -/
def matX11 : Mat := ⟨1, 1, fun _ _ => 0⟩

/-- A 2×1 signal. -/
def matX12 : Mat := ⟨2, 1, fun _ _ => 1⟩

/-- A 5×2 signal with distinct entries. -/
def matX52 : Mat := ⟨5, 2, fun t c => (t : ℝ) + (c : ℝ)⟩

/-- A 2×1 window. -/
def matS21 : Mat := ⟨2, 1, fun t _ => (t : ℝ)⟩

/-- A 2×3 window (fewer rows than columns, and rows ≠ columns). -/
def matS23 : Mat := ⟨2, 3, fun t c => (t : ℝ) * 3 + (c : ℝ)⟩

end

/-! Theorems. -/

/-- Transposition is an involution on `Mat`. -/
lemma transpose_transpose (S : Mat) : S.transpose.transpose = S := rfl

/-- `wstep` never writes the signal-matrix field of the loop state. -/
lemma wstep_x (wi : ℕ) (s : WState) : (wstep wi s).x = s.x := by
  rcases s with ⟨sx, st, en, i, f, e⟩
  cases e with
  | none =>
    show (wstepGo wi ⟨sx, st, en, i, f, none⟩).x = sx
    simp only [wstepGo]
    split
    · rfl
    · rfl
  | some e => rfl

/-- `wrun` never writes the signal-matrix field of the loop state. -/
lemma wrun_x (wi n : ℕ) : ∀ s : WState, (wrun wi n s).x = s.x := by
  induction n with
  | zero => intro s; rfl
  | succ n ih =>
    intro s
    show (wrun wi n (wstep wi s)).x = s.x
    rw [ih, wstep_x]

/-- C7: the moment extractor transposes a window that has fewer rows than
columns before computing features; a window and its transpose give the
same result whenever the row and column counts differ; and a square
window is left in its given orientation. -/
theorem ksm1_orientation_invariance (S : Mat) :
    (S.rows < S.cols → KSM1 S = KSM1core S.transpose) ∧
    (S.rows ≠ S.cols → KSM1 S.transpose = KSM1 S) ∧
    (S.rows = S.cols → KSM1 S = KSM1core S) := by
  refine ⟨fun h => ?_, fun h => ?_, fun h => ?_⟩
  · unfold KSM1 orient
    rw [if_pos h]
  · rcases lt_or_gt_of_ne h with hlt | hgt
    · unfold KSM1 orient
      rw [if_neg (show ¬ S.transpose.cols > S.transpose.rows from Nat.lt_asymm hlt),
        if_pos hlt]
    · unfold KSM1 orient
      rw [if_pos (show S.transpose.cols > S.transpose.rows from hgt),
        if_neg (show ¬ S.cols > S.rows from Nat.lt_asymm hgt), transpose_transpose]
  · unfold KSM1 orient
    rw [if_neg (show ¬ S.cols > S.rows from by omega)]

/-- C7 witness: the 2×3 window `matS23` (2 < 3 rows/columns, unequal) is
transposed by `KSM1`, and `KSM1` agrees on it and its transpose. -/
theorem ksm1_orientation_invariance_witness :
    KSM1 matS23 = KSM1core matS23.transpose ∧
      KSM1 matS23.transpose = KSM1 matS23 :=
  ⟨(ksm1_orientation_invariance matS23).1 (by decide),
   (ksm1_orientation_invariance matS23).2.1 (by decide)⟩

/-- The only exception a loop step can raise is the `ValueError` of a
shape-mismatched row assignment. -/
lemma wstep_err (wi : ℕ) (s : WState) :
    (wstep wi s).err = s.err ∨ (wstep wi s).err = some PyErr.valueErr := by
  rcases s with ⟨sx, st, en, i, f, e⟩
  cases e with
  | none =>
    show (wstepGo wi ⟨sx, st, en, i, f, none⟩).err = none ∨
      (wstepGo wi ⟨sx, st, en, i, f, none⟩).err = some PyErr.valueErr
    simp only [wstepGo]
    split
    · exact Or.inl rfl
    · exact Or.inr rfl
  | some e => exact Or.inl rfl

/-- The only exception the whole loop can raise is `ValueError`. -/
lemma wrun_err (wi n : ℕ) : ∀ s : WState,
    (wrun wi n s).err = s.err ∨ (wrun wi n s).err = some PyErr.valueErr := by
  induction n with
  | zero => intro s; exact Or.inl rfl
  | succ n ih =>
    intro s
    show (wrun wi n (wstep wi s)).err = s.err ∨
      (wrun wi n (wstep wi s)).err = some PyErr.valueErr
    rcases ih (wstep wi s) with h | h
    · rcases wstep_err wi s with h2 | h2
      · exact Or.inl (h.trans h2)
      · exact Or.inr (h.trans h2)
    · exact Or.inr h

/-- `getTDPSDfeatv3` itself never raises the argument-count `TypeError`:
its only error paths are `ZeroDivisionError` and `ValueError`. -/
lemma getTDPSD_not_typeErr (x : Mat) (ws wi : ℕ) :
    getTDPSDfeatv3 x ws wi ≠ Except.error PyErr.typeErr := by
  unfold getTDPSDfeatv3
  split
  · intro hcon
    injection hcon with h2
    exact PyErr.noConfusion h2
  · split
    · intro hcon
      injection hcon with h2
      exact PyErr.noConfusion h2
    · cases herr : (getTDPSDstate x ws wi).err with
      | none =>
        intro hcon
        exact Except.noConfusion hcon
      | some e =>
        have he : e = PyErr.valueErr := by
          rcases wrun_err wi (numwinZ x.rows ws wi).toNat
              (initState x ws (numwinZ x.rows ws wi).toNat) with h | h
          · have h2 : (getTDPSDstate x ws wi).err = none := h
            exact Option.noConfusion (herr.symm.trans h2)
          · have h2 : (getTDPSDstate x ws wi).err = some PyErr.valueErr := h
            exact Option.some.inj (herr.symm.trans h2)
        rw [he]
        intro hcon
        injection hcon with h2
        exact PyErr.noConfusion h2

/-- C5: supplying fewer than two sliding-window parameters raises the
argument-count error, and with two or more parameters no argument-count
error is raised. -/
theorem argcount_check (x : Mat) (ps : List ℕ) :
    (ps.length < 2 → getTDPSDfeatVar x ps = Except.error PyErr.typeErr) ∧
    (2 ≤ ps.length → getTDPSDfeatVar x ps ≠ Except.error PyErr.typeErr) := by
  constructor
  · intro h
    cases ps with
    | nil => rfl
    | cons a t =>
      cases t with
      | nil => rfl
      | cons b t2 =>
        exfalso
        simp only [List.length_cons] at h
        omega
  · intro h
    cases ps with
    | nil =>
      simp only [List.length_nil] at h
      omega
    | cons a t =>
      cases t with
      | nil =>
        simp only [List.length_cons, List.length_nil] at h
        omega
      | cons b t2 => exact getTDPSD_not_typeErr x a b

/-- C5 witness: with only `winsize = 4` supplied the call errors with the
argument-count error; with `winsize = 4, wininc = 2` it does not. -/
theorem argcount_check_witness :
    getTDPSDfeatVar matX11 [4] = Except.error PyErr.typeErr ∧
      getTDPSDfeatVar matX11 [4, 2] ≠ Except.error PyErr.typeErr :=
  ⟨(argcount_check matX11 [4]).1 (by decide),
   (argcount_check matX11 [4, 2]).2 (by decide)⟩

/-- C8 counterexample: on a 2×1 signal with `winsize = 9`, `wininc = 3`
the window count is `floor(-7/3) + 1 = -2 < 0`, and the call raises the
`ValueError` of `np.zeros` on a negative dimension instead of returning a
zero-row matrix. -/
theorem degenerate_numwin_counterexample :
    getTDPSDfeatv3 matX12 9 3 = Except.error PyErr.valueErr := rfl

/-- C8 (amended): with a positive increment, a window count of exactly
zero yields a zero-row output, while a negative window count makes the
`np.zeros` allocation raise `ValueError`. -/
theorem degenerate_numwin (x : Mat) (ws wi : ℕ) (hwi : 0 < wi)
    (h : numwinZ x.rows ws wi ≤ 0) :
    (numwinZ x.rows ws wi = 0 →
      getTDPSDfeatv3 x ws wi = Except.ok (Mat.zeros 0 (x.cols * 6))) ∧
    (numwinZ x.rows ws wi < 0 →
      getTDPSDfeatv3 x ws wi = Except.error PyErr.valueErr) := by
  constructor
  · intro h0
    unfold getTDPSDfeatv3
    rw [if_neg (by omega : ¬ wi = 0),
      if_neg (by omega : ¬ numwinZ x.rows ws wi < 0)]
    have hst : getTDPSDstate x ws wi = initState x ws 0 := by
      unfold getTDPSDstate
      rw [h0]
      rfl
    rw [hst]
    rfl
  · intro hneg
    unfold getTDPSDfeatv3
    rw [if_neg (by omega : ¬ wi = 0), if_pos hneg]

/-- C8 witness: a 1×1 signal with `winsize = 6`, `wininc = 2` has window
count `-2 ≤ 0` and errors. -/
theorem degenerate_numwin_witness :
    0 < 2 ∧ numwinZ matX11.rows 6 2 ≤ 0 ∧
      getTDPSDfeatv3 matX11 6 2 = Except.error PyErr.valueErr :=
  ⟨by decide, by decide,
   (degenerate_numwin matX11 6 2 (by decide) (by decide)).2 (by decide)⟩

/-- C1 counterexample: a 4×8 signal with `winsize = 4`, `wininc = 1`
satisfies `rows ≥ winsize` with positive parameters, yet the call raises
(`KSM1` transposes the 4×8 window, so the 24-entry feature vector cannot
be assigned to the 48-column output row) — no output row is produced. -/
theorem windower_formula_counterexample :
    getTDPSDfeatv3 matA48 4 1 = Except.error PyErr.valueErr := rfl

/-- C2 counterexample: a 4×5 signal with `winsize = 4`, `wininc = 2` is a
valid input in the claim's sense but raises a shape-mismatch `ValueError`
instead of returning a `numwin × (channels*6)` matrix. -/
theorem output_shape_counterexample :
    getTDPSDfeatv3 matB45 4 2 = Except.error PyErr.valueErr := rfl

/-- C3: `m2` is the normalized root of the mean of squared first
differences with divisor `samples - 1`; `m4` is the identical formula on
the second difference, again with divisor `samples - 1` even though `d2`
has `samples - 2` rows; and on the concrete window `[0, 1, 3]` the
`samples - 1` divisor provably differs from the hypothetical
`samples - 2` divisor. -/
theorem moment_divisors (S : Mat) (c : ℕ) :
    m2 S c = Real.sqrt ((∑ t ∈ Finset.range (S.rows - 1),
        (S.entry (t + 1) c - S.entry t c) ^ 2) /
        ((S.rows : ℝ) - 1)) ^ (0.1 : ℝ) / (0.1 : ℝ) ∧
    (d2 S).rows = S.rows - 2 ∧
    m4 S c = Real.sqrt ((∑ t ∈ Finset.range (S.rows - 2),
        (S.entry (t + 2) c - 2 * S.entry (t + 1) c + S.entry t c) ^ 2) /
        ((S.rows : ℝ) - 1)) ^ (0.1 : ℝ) / (0.1 : ℝ) ∧
    m4 matW0 0 ≠ Real.sqrt ((∑ t ∈ Finset.range (matW0.rows - 2),
        (matW0.entry (t + 2) 0 - 2 * matW0.entry (t + 1) 0 +
          matW0.entry t 0) ^ 2) /
        ((matW0.rows : ℝ) - 2)) ^ (0.1 : ℝ) / (0.1 : ℝ) := by
  have h2 : S.rows - 1 - 1 = S.rows - 2 := by omega
  refine ⟨rfl, h2, ?_, ?_⟩
  · have hcol : Mat.colSum ((d2 S).map sq) c
        = ∑ t ∈ Finset.range (S.rows - 2),
            (S.entry (t + 2) c - 2 * S.entry (t + 1) c + S.entry t c) ^ 2 := by
      show ∑ t ∈ Finset.range (S.rows - 1 - 1),
          (S.entry (t + 1 + 1) c - S.entry (t + 1) c -
            (S.entry (t + 1) c - S.entry t c)) ^ 2
        = ∑ t ∈ Finset.range (S.rows - 2),
            (S.entry (t + 2) c - 2 * S.entry (t + 1) c + S.entry t c) ^ 2
      rw [h2]
      refine Finset.sum_congr rfl fun t _ => ?_
      rw [show t + 1 + 1 = t + 2 from rfl]
      ring
    unfold m4
    rw [hcol]
    rfl
  · have hL : m4 matW0 0 = Real.sqrt (1 / 2) ^ (0.1 : ℝ) / (0.1 : ℝ) := by
      unfold m4
      have hc0 : Mat.colSum ((d2 matW0).map sq) 0 = 1 := by
        show ∑ t ∈ Finset.range 1,
            (matW0.entry (t + 1 + 1) 0 - matW0.entry (t + 1) 0 -
              (matW0.entry (t + 1) 0 - matW0.entry t 0)) ^ 2 = 1
        rw [Finset.sum_range_one]
        norm_num [matW0]
      rw [hc0]
      have hden : ((matW0.rows : ℕ) : ℝ) - 1 = 2 := by
        show ((3 : ℕ) : ℝ) - 1 = 2
        norm_num
      rw [hden]
      rfl
    have hR : Real.sqrt ((∑ t ∈ Finset.range (matW0.rows - 2),
          (matW0.entry (t + 2) 0 - 2 * matW0.entry (t + 1) 0 +
            matW0.entry t 0) ^ 2) /
          ((matW0.rows : ℝ) - 2)) ^ (0.1 : ℝ) / (0.1 : ℝ) = 10 := by
      have hsum : (∑ t ∈ Finset.range (matW0.rows - 2),
          (matW0.entry (t + 2) 0 - 2 * matW0.entry (t + 1) 0 +
            matW0.entry t 0) ^ 2) = 1 := by
        show ∑ t ∈ Finset.range 1,
            (matW0.entry (t + 2) 0 - 2 * matW0.entry (t + 1) 0 +
              matW0.entry t 0) ^ 2 = 1
        rw [Finset.sum_range_one]
        norm_num [matW0]
      rw [hsum]
      have hden : ((matW0.rows : ℕ) : ℝ) - 2 = 1 := by
        show ((3 : ℕ) : ℝ) - 2 = 1
        norm_num
      rw [hden]
      norm_num [Real.one_rpow]
    rw [hL, hR]
    have h01 : Real.sqrt (1 / 2) < 1 := by
      calc Real.sqrt (1 / 2) < Real.sqrt 1 :=
            Real.sqrt_lt_sqrt (by norm_num) (by norm_num)
        _ = 1 := Real.sqrt_one
    have hlt : Real.sqrt (1 / 2) ^ (0.1 : ℝ) < 1 :=
      Real.rpow_lt_one (Real.sqrt_nonneg _) h01 (by norm_num)
    have hfin : Real.sqrt (1 / 2) ^ (0.1 : ℝ) / (0.1 : ℝ) < 10 := by
      have h10 : (10 : ℝ) = 1 / (0.1 : ℝ) := by norm_num
      rw [h10]
      exact (div_lt_div_iff_of_pos_right (by norm_num)).mpr hlt
    exact ne_of_lt hfin

/-- C4: the moment extractor's output has length `6 * channels` and its
entry at flat index `f * channels + c` (for feature block `f < 6` and
channel `c`) is `log(abs(.))` of the `f`-th quantity in the fixed order
`[m0, m0 - m2, m0 - m4, sparsi, IRF, WLR]` at channel `c` — i.e. the
row-major flattening of the stacked `(6, channels)` structure, listing
`m0` for all channels first, then `m0 - m2` for all channels, and so
on. -/
theorem feature_stacking_order (S : Mat) (f c : ℕ) (hf : f < 6)
    (hc : c < (orient S).cols) :
    (KSM1 S).len = 6 * (orient S).cols ∧
    (KSM1 S).entry (f * (orient S).cols + c) =
      Real.log |featQuant (orient S) f c| := by
  refine ⟨rfl, ?_⟩
  revert hc
  show c < (orient S).cols →
    (KSM1core (orient S)).entry (f * (orient S).cols + c) =
      Real.log |featQuant (orient S) f c|
  generalize orient S = T
  intro hc
  suffices h : (stack6 T.cols (m0 T) (fun y => m0 T y - m2 T y)
      (fun y => m0 T y - m4 T y) (sparsi T) (IRF T) (WLR T)).entry
        (f * T.cols + c) = featQuant T f c by
    show Real.log |(stack6 T.cols (m0 T) (fun y => m0 T y - m2 T y)
        (fun y => m0 T y - m4 T y) (sparsi T) (IRF T) (WLR T)).entry
          (f * T.cols + c)| = Real.log |featQuant T f c|
    rw [h]
  interval_cases f
  · dsimp only [stack6]
    rw [show 0 * T.cols + c = c by omega, if_pos hc]
    rfl
  · dsimp only [stack6]
    rw [if_neg (by omega), if_pos (show 1 * T.cols + c < 2 * T.cols by omega),
      show 1 * T.cols + c - T.cols = c by omega]
    rfl
  · dsimp only [stack6]
    rw [if_neg (by omega), if_neg (by omega),
      if_pos (show 2 * T.cols + c < 3 * T.cols by omega),
      show 2 * T.cols + c - 2 * T.cols = c by omega]
    rfl
  · dsimp only [stack6]
    rw [if_neg (by omega), if_neg (by omega), if_neg (by omega),
      if_pos (show 3 * T.cols + c < 4 * T.cols by omega),
      show 3 * T.cols + c - 3 * T.cols = c by omega]
    rfl
  · dsimp only [stack6]
    rw [if_neg (by omega), if_neg (by omega), if_neg (by omega),
      if_neg (by omega),
      if_pos (show 4 * T.cols + c < 5 * T.cols by omega),
      show 4 * T.cols + c - 4 * T.cols = c by omega]
    rfl
  · dsimp only [stack6]
    rw [if_neg (by omega), if_neg (by omega), if_neg (by omega),
      if_neg (by omega), if_neg (by omega),
      show 5 * T.cols + c - 5 * T.cols = c by omega]
    rfl

/-- C4 witness: on the 2×1 window `matS21`, the last feature block
(`f = 5`, the waveform length ratio) sits at flat index `5`. -/
theorem feature_stacking_order_witness :
    (KSM1 matS21).len = 6 * (orient matS21).cols ∧
      (KSM1 matS21).entry (5 * (orient matS21).cols + 0) =
        Real.log |featQuant (orient matS21) 5 0| :=
  feature_stacking_order matS21 5 0 (by decide) (by decide)

/-- First differences of a constant window vanish. -/
lemma const_d1_entry (n ch : ℕ) (v : ℝ) (t k : ℕ) :
    (d1 (constMat n ch v)).entry t k = 0 := by
  show v - v = 0
  ring

/-- Second differences of a constant window vanish. -/
lemma const_d2_entry (n ch : ℕ) (v : ℝ) (t k : ℕ) :
    (d2 (constMat n ch v)).entry t k = 0 := by
  show v - v - (v - v) = 0
  ring

/-- `m2` of a constant window is zero. -/
lemma const_m2 (n ch : ℕ) (v : ℝ) (c : ℕ) : m2 (constMat n ch v) c = 0 := by
  unfold m2
  have hcol : Mat.colSum ((d1 (constMat n ch v)).map sq) c = 0 := by
    refine Finset.sum_eq_zero fun t _ => ?_
    show sq ((d1 (constMat n ch v)).entry t c) = 0
    rw [const_d1_entry]
    norm_num [sq]
  rw [hcol, zero_div, Real.sqrt_zero]
  unfold nrm
  rw [Real.zero_rpow (by norm_num), zero_div]

/-- `m4` of a constant window is zero. -/
lemma const_m4 (n ch : ℕ) (v : ℝ) (c : ℕ) : m4 (constMat n ch v) c = 0 := by
  unfold m4
  have hcol : Mat.colSum ((d2 (constMat n ch v)).map sq) c = 0 := by
    refine Finset.sum_eq_zero fun t _ => ?_
    show sq ((d2 (constMat n ch v)).entry t c) = 0
    rw [const_d2_entry]
    norm_num [sq]
  rw [hcol, zero_div, Real.sqrt_zero]
  unfold nrm
  rw [Real.zero_rpow (by norm_num), zero_div]

/-- The waveform length ratio of a constant window is zero. -/
lemma const_WLR (n ch : ℕ) (v : ℝ) (c : ℕ) : WLR (constMat n ch v) c = 0 := by
  unfold WLR
  have h1 : Mat.colSum ((d1 (constMat n ch v)).map (fun w => |w|)) c = 0 := by
    refine Finset.sum_eq_zero fun t _ => ?_
    show |(d1 (constMat n ch v)).entry t c| = 0
    rw [const_d1_entry, abs_zero]
  have h2 : Mat.colSum ((d2 (constMat n ch v)).map (fun w => |w|)) c = 0 := by
    refine Finset.sum_eq_zero fun t _ => ?_
    show |(d2 (constMat n ch v)).entry t c| = 0
    rw [const_d2_entry, abs_zero]
  rw [h1, h2, sub_zero]

/-- `m0` of a nonempty constant nonzero window is strictly positive. -/
lemma const_m0_pos (n ch : ℕ) (v : ℝ) (c : ℕ) (hn : 1 ≤ n) (hv : v ≠ 0) :
    0 < m0 (constMat n ch v) c := by
  unfold m0
  have hcol : Mat.colSum ((constMat n ch v).map sq) c = (n : ℝ) * v ^ 2 := by
    show (∑ _t ∈ Finset.range n, sq v) = (n : ℝ) * v ^ 2
    rw [Finset.sum_const, Finset.card_range, nsmul_eq_mul]
    norm_num [sq]
  rw [hcol]
  unfold nrm
  apply div_pos
  · apply Real.rpow_pos_of_pos
    apply Real.sqrt_pos_of_pos
    have hv2 : 0 < v ^ 2 := lt_of_le_of_ne (sq_nonneg v) (Ne.symm (pow_ne_zero 2 hv))
    have hn' : (0 : ℝ) < (n : ℝ) := by exact_mod_cast hn
    exact mul_pos hn' hv2
  · norm_num

/-- The sparseness of a nonempty constant nonzero window: its numerator
and denominator are both the positive `m0`, and the quotient is `1` (not
a `0/0` form). -/
lemma const_sparsi_parts (n ch : ℕ) (v : ℝ) (c : ℕ) (hn : 1 ≤ n)
    (hv : v ≠ 0) :
    0 < m0 (constMat n ch v) c ∧
    Real.sqrt |(m0 (constMat n ch v) c - m2 (constMat n ch v) c) *
        (m0 (constMat n ch v) c - m4 (constMat n ch v) c)| =
      m0 (constMat n ch v) c ∧
    sparsi (constMat n ch v) c = 1 := by
  have hm0 := const_m0_pos n ch v c hn hv
  have hden : Real.sqrt |(m0 (constMat n ch v) c - m2 (constMat n ch v) c) *
      (m0 (constMat n ch v) c - m4 (constMat n ch v) c)| =
      m0 (constMat n ch v) c := by
    rw [const_m2, const_m4, sub_zero,
      show m0 (constMat n ch v) c * m0 (constMat n ch v) c
          = m0 (constMat n ch v) c ^ 2 by ring,
      abs_of_nonneg (sq_nonneg _), Real.sqrt_sq (le_of_lt hm0)]
  refine ⟨hm0, hden, ?_⟩
  unfold sparsi
  rw [hden]
  exact div_self (ne_of_gt hm0)

/-- C6 counterexample: on the constant 3×1 window of value `5.0`, `m2`,
`m4` vanish but the sparseness division is `m0 / m0` with `m0 > 0` —
numerator and denominator are both strictly positive, so it is *not* a
`0/0` pattern (it evaluates to `1`), contradicting the claimed `NaN`
pattern for sparseness. -/
theorem const_window_counterexample :
    m2 (constMat 3 1 (5 : ℝ)) 0 = 0 ∧ m4 (constMat 3 1 (5 : ℝ)) 0 = 0 ∧
    0 < m0 (constMat 3 1 (5 : ℝ)) 0 ∧
    0 < Real.sqrt |(m0 (constMat 3 1 (5 : ℝ)) 0 - m2 (constMat 3 1 (5 : ℝ)) 0) *
        (m0 (constMat 3 1 (5 : ℝ)) 0 - m4 (constMat 3 1 (5 : ℝ)) 0)| ∧
    sparsi (constMat 3 1 (5 : ℝ)) 0 = 1 := by
  have H := const_sparsi_parts 3 1 (5 : ℝ) 0 (by norm_num) (by norm_num)
  refine ⟨const_m2 3 1 5 0, const_m4 3 1 5 0, H.1, ?_, H.2.2⟩
  rw [H.2.1]
  exact H.1

/-- C6 (amended): on a constant window the differences `d1`, `d2` are
identically zero, hence `m2 = m4 = 0` and the waveform length ratio is
zero; the irregularity-factor division is a genuine `0/0` pattern
(numerator `m2 = 0`, denominator `sqrt(m0*m4) = 0`); but for a nonzero
constant the sparseness division is `m0/m0` with `m0 > 0` and evaluates
to `1` (it is `0/0` only for the all-zero window). -/
theorem const_window_degeneracy (n ch : ℕ) (v : ℝ) (c t k : ℕ)
    (hn : 1 ≤ n) :
    (d1 (constMat n ch v)).entry t k = 0 ∧
    (d2 (constMat n ch v)).entry t k = 0 ∧
    m2 (constMat n ch v) c = 0 ∧
    m4 (constMat n ch v) c = 0 ∧
    WLR (constMat n ch v) c = 0 ∧
    Real.sqrt (m0 (constMat n ch v) c * m4 (constMat n ch v) c) = 0 ∧
    (v ≠ 0 → 0 < m0 (constMat n ch v) c ∧ sparsi (constMat n ch v) c = 1) := by
  refine ⟨const_d1_entry n ch v t k, const_d2_entry n ch v t k,
    const_m2 n ch v c, const_m4 n ch v c, const_WLR n ch v c, ?_, fun hv => ?_⟩
  · rw [const_m4, mul_zero, Real.sqrt_zero]
  · exact ⟨(const_sparsi_parts n ch v c hn hv).1,
      (const_sparsi_parts n ch v c hn hv).2.2⟩

/-- C6 witness: the constant 2×1 window of value `7`. -/
theorem const_window_degeneracy_witness :
    1 ≤ 2 ∧ (d1 (constMat 2 1 (7 : ℝ))).entry 0 0 = 0 ∧
      m2 (constMat 2 1 (7 : ℝ)) 0 = 0 ∧
      0 < m0 (constMat 2 1 (7 : ℝ)) 0 ∧
      sparsi (constMat 2 1 (7 : ℝ)) 0 = 1 := by
  have H := const_window_degeneracy 2 1 (7 : ℝ) 0 0 0 (by norm_num)
  exact ⟨by norm_num, H.1, H.2.2.1, (H.2.2.2.2.2.2 (by norm_num)).1,
    (H.2.2.2.2.2.2 (by norm_num)).2⟩

/-- Two matrix literals with the same shape and pointwise-equal entry
functions are equal. -/
lemma matmk_congr (r c : ℕ) (f g : ℕ → ℕ → ℝ) (h : ∀ t j, f t j = g t j) :
    (⟨r, c, f⟩ : Mat) = ⟨r, c, g⟩ := by
  have hf : f = g := funext fun t => funext fun j => h t j
  rw [hf]

/-- Squaring is invariant under elementwise negation. -/
lemma map_sq_neg (S : Mat) : S.neg.map sq = S.map sq :=
  matmk_congr S.rows S.cols (fun t j => sq (-(S.entry t j)))
    (fun t j => sq (S.entry t j)) (fun t j => by
      show (-(S.entry t j)) ^ 2 = (S.entry t j) ^ 2
      ring)

/-- Absolute value is invariant under elementwise negation. -/
lemma map_abs_neg (S : Mat) :
    S.neg.map (fun w => |w|) = S.map (fun w => |w|) :=
  matmk_congr S.rows S.cols (fun t j => |(-(S.entry t j))|)
    (fun t j => |S.entry t j|) (fun t j => abs_neg (S.entry t j))

/-- The log-power transform is invariant under elementwise negation. -/
lemma map_logPow_neg (S : Mat) : S.neg.map logPow = S.map logPow :=
  matmk_congr S.rows S.cols (fun t j => logPow (-(S.entry t j)))
    (fun t j => logPow (S.entry t j)) (fun t j => by
      show Real.log (sq (-(S.entry t j)) + spacing1)
        = Real.log (sq (S.entry t j) + spacing1)
      rw [show sq (-(S.entry t j)) = sq (S.entry t j) from by unfold sq; ring])

/-- Differencing commutes with elementwise negation. -/
lemma diff_neg (S : Mat) : S.neg.diff = S.diff.neg :=
  matmk_congr (S.rows - 1) S.cols
    (fun t j => -(S.entry (t + 1) j) - -(S.entry t j))
    (fun t j => -(S.entry (t + 1) j - S.entry t j)) (fun t j => by ring)

/-- `d1` commutes with elementwise negation. -/
lemma d1_neg (S : Mat) : d1 S.neg = (d1 S).neg := diff_neg S

/-- `d2` commutes with elementwise negation. -/
lemma d2_neg (S : Mat) : d2 S.neg = (d2 S).neg := by
  unfold d2
  rw [diff_neg S, diff_neg S.diff]

/-- `m0` is sign-invariant. -/
lemma m0_neg (S : Mat) (c : ℕ) : m0 S.neg c = m0 S c := by
  unfold m0
  rw [map_sq_neg]

/-- `m2` is sign-invariant. -/
lemma m2_neg (S : Mat) (c : ℕ) : m2 S.neg c = m2 S c := by
  unfold m2
  rw [show S.neg.rows = S.rows from rfl,
    show d1 S.neg = (d1 S).neg from d1_neg S, map_sq_neg]

/-- `m4` is sign-invariant. -/
lemma m4_neg (S : Mat) (c : ℕ) : m4 S.neg c = m4 S c := by
  unfold m4
  rw [show S.neg.rows = S.rows from rfl,
    show d2 S.neg = (d2 S).neg from d2_neg S, map_sq_neg]

/-- Sparseness is sign-invariant. -/
lemma sparsi_neg (S : Mat) (c : ℕ) : sparsi S.neg c = sparsi S c := by
  unfold sparsi
  rw [m0_neg, m2_neg, m4_neg]

/-- The irregularity factor is sign-invariant. -/
lemma IRF_neg (S : Mat) (c : ℕ) : IRF S.neg c = IRF S c := by
  unfold IRF
  rw [m0_neg, m2_neg, m4_neg]

/-- The waveform length ratio is sign-invariant. -/
lemma WLR_neg (S : Mat) (c : ℕ) : WLR S.neg c = WLR S c := by
  unfold WLR
  rw [d1_neg, map_abs_neg, d2_neg, map_abs_neg]

/-- The core moment extractor is sign-invariant. -/
lemma KSM1core_neg (S : Mat) : KSM1core S.neg = KSM1core S := by
  unfold KSM1core
  rw [show S.neg.cols = S.cols from rfl,
    show m0 S.neg = m0 S from funext fun c => m0_neg S c,
    show m2 S.neg = m2 S from funext fun c => m2_neg S c,
    show m4 S.neg = m4 S from funext fun c => m4_neg S c,
    show sparsi S.neg = sparsi S from funext fun c => sparsi_neg S c,
    show IRF S.neg = IRF S from funext fun c => IRF_neg S c,
    show WLR S.neg = WLR S from funext fun c => WLR_neg S c]

/-- The moment extractor is sign-invariant (orientation normalization
commutes with negation). -/
lemma KSM1_neg (S : Mat) : KSM1 S.neg = KSM1 S := by
  unfold KSM1 orient
  rw [show S.neg.cols = S.cols from rfl, show S.neg.rows = S.rows from rfl]
  by_cases h : S.cols > S.rows
  · rw [if_pos h, if_pos h,
      show S.neg.transpose = S.transpose.neg from rfl, KSM1core_neg]
  · rw [if_neg h, if_neg h, KSM1core_neg]

/-- Row slicing commutes with elementwise negation. -/
lemma slice_neg (x : Mat) (st en : ℕ) :
    x.neg.sliceRows st en = (x.sliceRows st en).neg := rfl

/-- A loop step on the negated signal is the step on the original signal
with the signal field negated. -/
lemma wstep_negX (wi : ℕ) (s : WState) :
    wstep wi (negX s) = negX (wstep wi s) := by
  rcases s with ⟨sx, st, en, i, f, e⟩
  cases e with
  | some e => rfl
  | none =>
    have hv : combineVec (KSM1 ((sx.neg.sliceRows st en).map logPow))
        (KSM1 (sx.neg.sliceRows st en))
        = combineVec (KSM1 ((sx.sliceRows st en).map logPow))
          (KSM1 (sx.sliceRows st en)) := by
      rw [slice_neg, KSM1_neg, map_logPow_neg]
    show wstepGo wi ⟨sx.neg, st, en, i, f, none⟩
      = negX (wstepGo wi ⟨sx, st, en, i, f, none⟩)
    unfold wstepGo
    dsimp only
    rw [hv, apply_ite negX]
    split
    · rfl
    · rfl

/-- The whole loop on the negated signal equals the loop on the original
signal with the signal field negated. -/
lemma wrun_negX (wi n : ℕ) : ∀ s : WState,
    wrun wi n (negX s) = negX (wrun wi n s) := by
  induction n with
  | zero => intro s; rfl
  | succ n ih =>
    intro s
    show wrun wi n (wstep wi (negX s)) = negX (wrun wi n (wstep wi s))
    rw [wstep_negX]
    exact ih (wstep wi s)

/-- The final loop state on `-x` is the final state on `x` with the
signal field negated. -/
lemma getTDPSDstate_neg (x : Mat) (ws wi : ℕ) :
    getTDPSDstate x.neg ws wi = negX (getTDPSDstate x ws wi) := by
  unfold getTDPSDstate
  rw [show x.neg.rows = x.rows from rfl,
    show initState x.neg ws (numwinZ x.rows ws wi).toNat
      = negX (initState x ws (numwinZ x.rows ws wi).toNat) from rfl]
  exact wrun_negX wi (numwinZ x.rows ws wi).toNat
    (initState x ws (numwinZ x.rows ws wi).toNat)

/-- C10: sign invariance — the moment extractor gives the same feature
vector on `-S` as on `S` (every quantity depends only on squares or
absolute values of the signal and its differences), and consequently
`getTDPSDfeatv3` gives the same output on `-x` as on `x`. -/
theorem sign_invariance (S x : Mat) (ws wi : ℕ) :
    KSM1 S.neg = KSM1 S ∧
      getTDPSDfeatv3 x.neg ws wi = getTDPSDfeatv3 x ws wi := by
  refine ⟨KSM1_neg S, ?_⟩
  unfold getTDPSDfeatv3
  rw [show x.neg.rows = x.rows from rfl, getTDPSDstate_neg,
    show (negX (getTDPSDstate x ws wi)).err
      = (getTDPSDstate x ws wi).err from rfl,
    show (negX (getTDPSDstate x ws wi)).feat
      = (getTDPSDstate x ws wi).feat from rfl]

/-- Unfolding the loop from the right. -/
lemma wrun_succ (wi n : ℕ) (s : WState) :
    wrun wi (n + 1) s = wstep wi (wrun wi n s) := by
  induction n generalizing s with
  | zero => rfl
  | succ n ih =>
    show wrun wi (n + 1) (wstep wi s) = wstep wi (wrun wi (n + 1) s)
    rw [ih (wstep wi s)]
    rfl

/-- For `winsize ≤ datasize` and a positive increment, the window count
is the natural number `(datasize - winsize)/wininc + 1`. -/
lemma numwinZ_eq (d ws wi : ℕ) (hwi : 0 < wi) (hr : ws ≤ d) :
    numwinZ d ws wi = (((d - ws) / wi + 1 : ℕ) : ℤ) := by
  unfold numwinZ
  have h1 : (d : ℤ) - (ws : ℤ) = ((d - ws : ℕ) : ℤ) := by omega
  rw [h1, Int.fdiv_eq_ediv _ (by positivity), ← Int.natCast_div]
  push_cast
  ring

/-- `toNat` of the window count under the same hypotheses. -/
lemma numwinZ_toNat (d ws wi : ℕ) (hwi : 0 < wi) (hr : ws ≤ d) :
    (numwinZ d ws wi).toNat = (d - ws) / wi + 1 := by
  rw [numwinZ_eq d ws wi hwi hr, Int.toNat_natCast]

/-- One loop step preserves the windowing invariant (as long as the
channel count does not exceed the window size, so that `KSM1` does not
transpose the window and the row assignment is shape-compatible). -/
lemma wstep_inv (x : Mat) (ws wi N k : ℕ) (s : WState)
    (hwi : 0 < wi) (hr : ws ≤ x.rows) (hc : x.cols ≤ ws)
    (hN : N = (x.rows - ws) / wi + 1) (hk : k < N)
    (hinv : WInv x ws wi N k s) : WInv x ws wi N (k + 1) (wstep wi s) := by
  have hkle : k * wi + ws ≤ x.rows := by
    have hk2 : k ≤ (x.rows - ws) / wi := by omega
    have hk3 : k * wi ≤ x.rows - ws := (Nat.le_div_iff_mul_le hwi).mp hk2
    calc k * wi + ws ≤ (x.rows - ws) + ws := Nat.add_le_add_right hk3 ws
      _ = x.rows := Nat.sub_add_cancel hr
  rcases s with ⟨sx, sst, sen, sidx, sfeat, serr⟩
  unfold WInv at hinv ⊢
  obtain ⟨hx, hst, hen, hidx, herr, hrows, hcols, hprev⟩ := hinv
  dsimp only at hx hst hen hidx herr hrows hcols hprev
  subst hx hst hen hidx herr
  have hcond : (combineVec
      (KSM1 ((sx.sliceRows (sidx * wi) (sidx * wi + ws)).map logPow))
      (KSM1 (sx.sliceRows (sidx * wi) (sidx * wi + ws)))).len
      = sfeat.cols := by
    have hcw_rows : (sx.sliceRows (sidx * wi) (sidx * wi + ws)).rows = ws := by
      show min (sidx * wi + ws) sx.rows - sidx * wi = ws
      rw [min_eq_left hkle]
      omega
    have hnot : ¬ (sx.sliceRows (sidx * wi) (sidx * wi + ws)).cols >
        (sx.sliceRows (sidx * wi) (sidx * wi + ws)).rows := by
      rw [hcw_rows]
      exact Nat.not_lt.mpr hc
    show (KSM1core (orient (sx.sliceRows (sidx * wi) (sidx * wi + ws)))).len
      = sfeat.cols
    rw [show orient (sx.sliceRows (sidx * wi) (sidx * wi + ws))
        = sx.sliceRows (sidx * wi) (sidx * wi + ws) from if_neg hnot]
    show 6 * sx.cols = sfeat.cols
    rw [hcols]
    ring
  have hw : wstep wi ⟨sx, sidx * wi, sidx * wi + ws, sidx, sfeat, none⟩
      = ⟨sx, sidx * wi + wi, sidx * wi + ws + wi, sidx + 1,
          sfeat.setRow sidx (targetRow sx ws wi sidx), none⟩ := by
    show wstepGo wi ⟨sx, sidx * wi, sidx * wi + ws, sidx, sfeat, none⟩ = _
    unfold wstepGo
    dsimp only
    rw [if_pos hcond]
    rfl
  rw [hw]
  refine ⟨rfl, ?_, ?_, rfl, rfl, hrows, hcols, ?_⟩
  · show sidx * wi + wi = (sidx + 1) * wi
    ring
  · show sidx * wi + ws + wi = (sidx + 1) * wi + ws
    ring
  · intro r hrk j
    show (if r = sidx then (targetRow sx ws wi sidx).entry j
      else sfeat.entry r j) = (targetRow sx ws wi r).entry j
    by_cases hrk2 : r = sidx
    · rw [if_pos hrk2, hrk2]
    · rw [if_neg hrk2]
      exact hprev r (by omega) j

/-- The initial loop state satisfies the invariant at `k = 0`. -/
lemma winv_init (x : Mat) (ws wi N : ℕ) :
    WInv x ws wi N 0 (initState x ws N) := by
  unfold WInv initState
  refine ⟨rfl, ?_, ?_, rfl, rfl, rfl, rfl, ?_⟩
  · show (0 : ℕ) = 0 * wi
    rw [Nat.zero_mul]
  · show ws = 0 * wi + ws
    rw [Nat.zero_mul, Nat.zero_add]
  · intro r hr0 j
    exact absurd hr0 (Nat.not_lt_zero r)

/-- The windowing invariant holds after any `k ≤ N` loop iterations. -/
lemma winv_wrun (x : Mat) (ws wi N : ℕ) (hwi : 0 < wi) (hr : ws ≤ x.rows)
    (hc : x.cols ≤ ws) (hN : N = (x.rows - ws) / wi + 1) :
    ∀ k, k ≤ N → WInv x ws wi N k (wrun wi k (initState x ws N)) := by
  intro k
  induction k with
  | zero => intro _; exact winv_init x ws wi N
  | succ k ih =>
    intro hk
    rw [wrun_succ]
    exact wstep_inv x ws wi N k _ hwi hr hc hN (by omega) (ih (by omega))

/-- Master lemma for valid inputs with `channels ≤ winsize`: the call
succeeds, the output has the expected shape, and every output row is the
combined feature vector of its window. -/
lemma getTDPSD_ok (x : Mat) (ws wi : ℕ) (hws : 0 < ws) (hwi : 0 < wi)
    (hr : ws ≤ x.rows) (hc : x.cols ≤ ws) :
    getTDPSDfeatv3 x ws wi = Except.ok (getTDPSDstate x ws wi).feat ∧
    (getTDPSDstate x ws wi).feat.rows = (x.rows - ws) / wi + 1 ∧
    (getTDPSDstate x ws wi).feat.cols = x.cols * 6 ∧
    ∀ r < (x.rows - ws) / wi + 1, ∀ j,
      (getTDPSDstate x ws wi).feat.entry r j
        = (targetRow x ws wi r).entry j := by
  have hstate : getTDPSDstate x ws wi
      = wrun wi ((x.rows - ws) / wi + 1)
          (initState x ws ((x.rows - ws) / wi + 1)) := by
    unfold getTDPSDstate
    rw [numwinZ_toNat x.rows ws wi hwi hr]
  have hinv := winv_wrun x ws wi ((x.rows - ws) / wi + 1) hwi hr hc rfl
    ((x.rows - ws) / wi + 1) (le_refl _)
  rw [← hstate] at hinv
  unfold WInv at hinv
  obtain ⟨hx, hst, hen, hidx, herr, hrows, hcols, hcontent⟩ := hinv
  refine ⟨?_, hrows, hcols, hcontent⟩
  have hpos : ¬ numwinZ x.rows ws wi < 0 := by
    rw [numwinZ_eq x.rows ws wi hwi hr]
    exact not_lt.mpr (Int.natCast_nonneg _)
  unfold getTDPSDfeatv3
  rw [if_neg (by omega : ¬ wi = 0), if_neg hpos, herr]

/-- C1 (amended: additionally `channels ≤ winsize`, without which the
row assignment raises): the call succeeds, and for each window index `i`
the output row `i` is the elementwise combination
`-2*efp*ebp - (efp² + ebp²)` of `ebp = KSM1(curwin)` and
`efp = KSM1(log(curwin² + spacing))` on `curwin = x[i*wininc :
i*wininc + winsize, :]`. -/
theorem window_slicing_and_combination (x : Mat) (ws wi : ℕ) (hws : 0 < ws)
    (hwi : 0 < wi) (hr : ws ≤ x.rows) (hc : x.cols ≤ ws) :
    ∃ F, getTDPSDfeatv3 x ws wi = Except.ok F ∧
      ∀ i < (x.rows - ws) / wi + 1, ∀ j, F.entry i j
        = (combineVec (KSM1 ((x.sliceRows (i * wi) (i * wi + ws)).map logPow))
            (KSM1 (x.sliceRows (i * wi) (i * wi + ws)))).entry j := by
  obtain ⟨hok, _, _, hcontent⟩ := getTDPSD_ok x ws wi hws hwi hr hc
  exact ⟨_, hok, hcontent⟩

/-- C1 witness: Scenario 1 — the 6×1 signal `[1,2,3,4,5,6]` with
`winsize = 4`, `wininc = 2`: the call succeeds with every row given by
the window formula, window 0 is rows `[0,4)` holding samples
`1,2,3,4`, and window 1 is rows `[2,6)` holding samples `3,4,5,6`. -/
theorem window_slicing_and_combination_witness :
    (∃ F, getTDPSDfeatv3 sigX6 4 2 = Except.ok F ∧
      ∀ i < (sigX6.rows - 4) / 2 + 1, ∀ j, F.entry i j
        = (combineVec
            (KSM1 ((sigX6.sliceRows (i * 2) (i * 2 + 4)).map logPow))
            (KSM1 (sigX6.sliceRows (i * 2) (i * 2 + 4)))).entry j) ∧
    (sigX6.rows - 4) / 2 + 1 = 2 ∧
    (sigX6.sliceRows (0 * 2) (0 * 2 + 4)).rows = 4 ∧
    (sigX6.sliceRows (0 * 2) (0 * 2 + 4)).entry 0 0 = 1 ∧
    (sigX6.sliceRows (0 * 2) (0 * 2 + 4)).entry 3 0 = 4 ∧
    (sigX6.sliceRows (1 * 2) (1 * 2 + 4)).rows = 4 ∧
    (sigX6.sliceRows (1 * 2) (1 * 2 + 4)).entry 0 0 = 3 ∧
    (sigX6.sliceRows (1 * 2) (1 * 2 + 4)).entry 3 0 = 6 :=
  ⟨window_slicing_and_combination sigX6 4 2 (by decide) (by decide)
      (by decide) (by decide),
    by decide, by decide, rfl, rfl, by decide, rfl, rfl⟩

/-- C2 (amended: additionally `channels ≤ winsize`, without which the
row assignment raises): the output exists and has exactly
`floor((rows - winsize)/wininc) + 1` rows and `channels * 6` columns. -/
theorem output_shape (x : Mat) (ws wi : ℕ) (hws : 0 < ws) (hwi : 0 < wi)
    (hr : ws ≤ x.rows) (hc : x.cols ≤ ws) :
    ∃ F, getTDPSDfeatv3 x ws wi = Except.ok F ∧
      F.rows = (x.rows - ws) / wi + 1 ∧ F.cols = x.cols * 6 := by
  obtain ⟨hok, h1, h2, _⟩ := getTDPSD_ok x ws wi hws hwi hr hc
  exact ⟨_, hok, h1, h2⟩

/-- C2 witness: a 5×2 signal with `winsize = 3`, `wininc = 1` yields a
3×12 feature matrix. -/
theorem output_shape_witness :
    ∃ F, getTDPSDfeatv3 matX52 3 1 = Except.ok F ∧
      F.rows = 3 ∧ F.cols = 12 := by
  obtain ⟨F, hok, h1, h2⟩ := output_shape matX52 3 1 (by decide) (by decide)
    (by decide) (by decide)
  exact ⟨F, hok, h1.trans (by decide), h2.trans (by decide)⟩

/-- C9: the computation never mutates the caller's signal matrix — the
step function and the whole windowing loop leave the signal-matrix field
of the state unchanged, and the final state of `getTDPSDfeatv3` still
holds the original input. -/
theorem getTDPSD_no_mutation (x : Mat) (ws wi n : ℕ) (s : WState) :
    (wstep wi s).x = s.x ∧ (wrun wi n s).x = s.x ∧
      (getTDPSDstate x ws wi).x = x := by
  refine ⟨wstep_x wi s, wrun_x wi n s, ?_⟩
  show (wrun wi _ (initState x ws _)).x = x
  rw [wrun_x]
  rfl

end TDPSD
